import Mathlib

/-!
Verification of the invoice text-to-record extraction and reconciliation
engine of `auto_tdl_v1.1_stable.py` (function `process_tdl_invoice`).

The Python source is shallowly embedded below.  Decimal values that the
script keeps as Python floats are modelled as exact rationals (`ℚ`);
the numeric strings handled by the script are unsigned decimal literals,
which rationals represent exactly.  Regular-expression searches are
embedded as explicit scanners; every pattern used by the script has the
property that each quantified character class (`\d+`, `\s+`, `\s*`) is
followed by a character outside the class, so greedy maximal-munch
scanning coincides with Python's backtracking regex semantics.
-/

namespace AutoTdl

attribute [local semireducible] Rat.add Rat.mul Rat.sub Rat.inv

/-- Python's `\s` class on the ASCII characters that occur in extracted
page text: space, tab, newline, carriage return, vertical tab, form feed. -/
def isPyWs (c : Char) : Bool :=
  c = ' ' || c = '\t' || c = '\n' || c = '\r' || c = Char.ofNat 11 || c = Char.ofNat 12

/-- Numeric value of a digit string (big-endian), as a rational. -/
def digitsVal (cs : List Char) : ℚ :=
  ((cs.foldl (fun n c => 10 * n + (c.toNat - 48)) 0 : ℕ) : ℚ)

/-- Source line 116: `re.match(r'^\d+$', part)` — the token is one or more
digits and nothing else. -/
def numIntMatch (cs : List Char) : Bool :=
  !cs.isEmpty && cs.all Char.isDigit

/-- Source line 116: `re.match(r'^\d+\.?\d*$', part)` — one or more digits,
then optionally a dot followed by zero or more digits, ending the token.
The leading `\d+` is matched by the maximal digit run: shrinking it would
expose a digit to `\.?$`/`\d*$`, which cannot extend the match. -/
def numDecMatch (cs : List Char) : Bool :=
  let d := cs.takeWhile Char.isDigit
  match cs.dropWhile Char.isDigit with
  | [] => !d.isEmpty
  | c :: r2 => !d.isEmpty && c = '.' && r2.all Char.isDigit

/-- Source lines 114-117: a whitespace-delimited token is collected into
`numbers` iff it matches `^\d+\.?\d*$` or `^\d+$`. -/
def is_numeric_token (t : String) : Bool :=
  numDecMatch t.data || numIntMatch t.data

/-- Python `float()` restricted to the unsigned decimal-literal shapes
(`\d+`, `\d+.\d*`) that the script ever feeds it; other strings yield
`none`, modelling the `ValueError` that the recognizer catches. -/
def parseFloat (s : String) : Option ℚ :=
  let ip := s.data.takeWhile Char.isDigit
  if ip.isEmpty then none
  else
    match s.data.dropWhile Char.isDigit with
    | [] => some (digitsVal ip)
    | c :: fr =>
      if c = '.' && fr.all Char.isDigit then
        some (digitsVal ip + digitsVal fr / 10 ^ fr.length)
      else none

/-- Python `int(x)` on a float: truncation toward zero. -/
def pyInt (q : ℚ) : ℤ :=
  if 0 ≤ q then ⌊q⌋ else ⌈q⌉

/-- Python's `round` to an integer: round half to even (banker's rounding),
on the exact rational value. -/
def pyRound (q : ℚ) : ℤ :=
  if q - ⌊q⌋ < 1 / 2 then ⌊q⌋
  else if 1 / 2 < q - ⌊q⌋ then ⌊q⌋ + 1
  else if ⌊q⌋ % 2 = 0 then ⌊q⌋ else ⌊q⌋ + 1

/-- Source line 127: `round(qty * unit_price, 2)`. -/
def round2 (q : ℚ) : ℚ :=
  ((pyRound (100 * q) : ℤ) : ℚ) / 100

/-- Helper for `pySplit`: accumulates the current token (reversed). -/
def splitWsAux : List Char → List Char → List String
  | [], acc => if acc.isEmpty then [] else [String.mk acc.reverse]
  | c :: rest, acc =>
    if isPyWs c then
      if acc.isEmpty then splitWsAux rest []
      else String.mk acc.reverse :: splitWsAux rest []
    else splitWsAux rest (c :: acc)

/-- Source line 111: `line.split()` — split on runs of whitespace,
discarding empty tokens. -/
def pySplit (s : String) : List String :=
  splitWsAux s.data []

/-- Source lines 111-117: the ordered subsequence of numeric tokens of a
line (`numbers`). -/
def numericTokens (line : String) : List String :=
  (pySplit line).filter is_numeric_token

/-- Source line 103: `re.match(r'^(\d{5,8})\s', line)`.  The leading
maximal digit run must have length 5..8 and be followed by a whitespace
character.  Backtracking cannot produce any other match: every proper
prefix of the run is followed by a digit, which `\s` rejects, so the
regex matches iff the whole run has length 5..8 and is followed by
whitespace, and then the captured group is the whole run. -/
def codeMatch (line : String) : Option String :=
  let run := line.data.takeWhile Char.isDigit
  match line.data.dropWhile Char.isDigit with
  | c :: _ =>
    if 5 ≤ run.length && run.length ≤ 8 && isPyWs c then some (String.mk run)
    else none
  | [] => none

/-- Source lines 107-108: `item_code.zfill(8)` applied when the code is
shorter than 8 characters (the codes are pure digit strings, so `zfill`
left-pads with `'0'`). -/
def zfill8 (s : String) : String :=
  if s.length < 8 then String.mk (List.replicate (8 - s.length) '0' ++ s.data) else s

/-- A line-item candidate produced by the recognizer (source lines
103-127): canonical item code, shipped quantity, unit price, line total. -/
structure Cand where
  itemCode : String
  quantity : ℤ
  unitPrice : ℚ
  lineTotal : ℚ
deriving DecidableEq

/-- Source lines 103-127 and 147-148 (the candidate-forming part of the
loop body): match the leading item code, canonicalize it, collect the
numeric tokens, require at least 4 of them, then read
`qty = int(float(numbers[1]))` and `unit_price = float(numbers[3])`;
an out-of-range index or a failed parse (IndexError/ValueError) is
caught and yields no candidate. -/
def recognize (line : String) : Option Cand :=
  (codeMatch line).bind fun raw =>
    let code := zfill8 raw
    let numbers := numericTokens line
    if numbers.length < 4 then none
    else
      (numbers.get? 1).bind fun n1 =>
        (numbers.get? 3).bind fun n3 =>
          (parseFloat n1).bind fun q =>
            (parseFloat n3).bind fun u =>
              some ⟨code, pyInt q, u, round2 ((pyInt q : ℚ) * u)⟩

/-- A row of the reference table after loading (source lines 64-74):
pandas stringifies the `Item Code` cell (`astype(str)`) but applies no
zero-padding to it; `GL Code` and `GL Description` are carried along
(the script later prints `GL Code` through `str`, so we keep strings). -/
structure Row where
  itemCode : String
  glCode : String
  glDesc : String
deriving DecidableEq

/-- Source lines 133-134: `db[db["Item Code"] == item_code]` followed by
`match.iloc[0]` — the first row (in load order) whose stringified item
code equals the queried code, if any. -/
def lookup (db : List Row) (code : String) : Option Row :=
  db.find? (fun r => r.itemCode == code)

/-- A reconciled line item as appended to `items` (source lines 139-146). -/
structure Item where
  itemCode : String
  quantity : ℤ
  unitPrice : ℚ
  lineTotal : ℚ
  glCode : String
  glDesc : String
deriving DecidableEq

/-- Source lines 129-146: default both GL fields to `"NOT_FOUND"`, then
overwrite them from the first matching table row when one exists. -/
def reconcile (db : List Row) (c : Cand) : Item :=
  match lookup db c.itemCode with
  | some r => ⟨c.itemCode, c.quantity, c.unitPrice, c.lineTotal, r.glCode, r.glDesc⟩
  | none => ⟨c.itemCode, c.quantity, c.unitPrice, c.lineTotal, "NOT_FOUND", "NOT_FOUND"⟩

/-- One iteration of the per-line loop (source lines 101-148): recognize
the line and, if it is an item line, reconcile it against the table. -/
def processLine (db : List Row) (line : String) : Option Item :=
  (recognize line).map (reconcile db)

/-- Source line 194: `summary[gl_desc] = summary.get(gl_desc, 0) + line_total`
on a Python dict, which keeps the position of an existing key and appends a
new key at the end.  Modelled as an in-order association list. -/
def addToSummary : List (String × ℚ) → String → ℚ → List (String × ℚ)
  | [], d, v => [(d, v)]
  | (k, a) :: rest, d, v =>
    if k = d then (k, a + v) :: rest else (k, a) :: addToSummary rest d v

/-- Source lines 191-194: group the items by GL description, summing the
line totals; keys appear in first-encountered order. -/
def summaryOf (items : List Item) : List (String × ℚ) :=
  items.foldl (fun s it => addToSummary s it.glDesc it.lineTotal) []

/-- Insert an entry into a descending-sorted list, after every entry whose
amount is at least as large (so equal amounts keep their existing order). -/
def insertDesc (x : String × ℚ) : List (String × ℚ) → List (String × ℚ)
  | [] => [x]
  | y :: ys => if y.2 < x.2 then x :: y :: ys else y :: insertDesc x ys

/-- Source line 200: `sorted(summary.items(), key=lambda x: x[1], reverse=True)`.
Python's sort is stable and `reverse=True` preserves the order of equal keys,
so it computes the unique stable descending reordering, here realized as a
stable insertion sort. -/
def sortDesc (l : List (String × ℚ)) : List (String × ℚ) :=
  l.foldl (fun acc x => insertDesc x acc) []

/-- Position of the first occurrence of `d` in `ds` (the list's length when
`d` does not occur): the first-encountered position in document order. -/
def firstIdx : List String → String → ℕ
  | [], _ => 0
  | d :: ds, k => if d = k then 0 else firstIdx ds k + 1

/-- Value of the summary entry for key `k`, if present. -/
def lookupSummary (s : List (String × ℚ)) (k : String) : Option ℚ :=
  (s.find? (fun p => p.1 == k)).map Prod.snd

/-- Scanner step: one or more whitespace characters (`\s+`), maximal run.
In every pattern below the next element is a non-whitespace character, so
the maximal run is the only viable match. -/
def skipWs1 (cs : List Char) : Option (List Char) :=
  match cs with
  | c :: rest => if isPyWs c then some (rest.dropWhile isPyWs) else none
  | [] => none

/-- Scanner step: zero or more whitespace characters (`\s*`), maximal run. -/
def skipWs0 (cs : List Char) : List Char :=
  cs.dropWhile isPyWs

/-- Scanner step: a literal string. -/
def takeLit (pat : List Char) (cs : List Char) : Option (List Char) :=
  if cs.take pat.length = pat then some (cs.drop pat.length) else none

/-- Scanner step: one or more digits (`\d+`), maximal run, returning the
digits and the remainder. -/
def takeDigits1 (cs : List Char) : Option (List Char × List Char) :=
  let d := cs.takeWhile Char.isDigit
  if d.isEmpty then none else some (d, cs.dropWhile Char.isDigit)

/-- Scanner step: a decimal number `\d+\.\d+`, returning the matched text
and the remainder.  Both digit runs are maximal; backtracking cannot help
because in every use the next pattern element rejects a digit. -/
def takeDec (cs : List Char) : Option (String × List Char) :=
  match takeDigits1 cs with
  | none => none
  | some (a, r1) =>
    match takeLit ['.'] r1 with
    | none => none
    | some r2 =>
      match takeDigits1 r2 with
      | none => none
      | some (b, r3) => some (String.mk (a ++ '.' :: b), r3)

/-- Python `re.search` semantics: try the anchored matcher at each start position
from the left, returning the first success. -/
def searchAux (f : List Char → Option α) : List Char → Option α
  | [] => f []
  | c :: rest =>
    match f (c :: rest) with
    | some v => some v
    | none => searchAux f rest

/-- Anchored matcher for source line 94:
`Invoice Number\s*:\s*(\d+)`, capturing the digits. -/
def invoiceAt (cs : List Char) : Option String :=
  match takeLit "Invoice Number".data cs with
  | none => none
  | some r1 =>
    match takeLit [':'] (skipWs0 r1) with
    | none => none
    | some r2 =>
      match takeDigits1 (skipWs0 r2) with
      | none => none
      | some (d, _) => some (String.mk d)

/-- Anchored matcher for source line 153:
`Tariff Allocation\s+(\d+\.\d+)`, capturing the decimal. -/
def tariffAt (cs : List Char) : Option String :=
  match takeLit "Tariff Allocation".data cs with
  | none => none
  | some r1 =>
    match skipWs1 r1 with
    | none => none
    | some r2 => (takeDec r2).map Prod.fst

/-- Anchored matcher for the primary fuel-surcharge pattern, source line 158:
`Fuel Surcharge\s+\d+\.\d+\s+0\.00\s+(\d+\.\d+)`, capturing the trailing
decimal. -/
def fuelPrimaryAt (cs : List Char) : Option String :=
  match takeLit "Fuel Surcharge".data cs with
  | none => none
  | some r1 =>
    match skipWs1 r1 with
    | none => none
    | some r2 =>
      match takeDec r2 with
      | none => none
      | some (_, r3) =>
        match skipWs1 r3 with
        | none => none
        | some r4 =>
          match takeLit "0.00".data r4 with
          | none => none
          | some r5 =>
            match skipWs1 r5 with
            | none => none
            | some r6 => (takeDec r6).map Prod.fst

/-- Anchored matcher for the fallback fuel-surcharge pattern, source line
163: `Fuel Surcharge\s+(\d+\.\d+)`, capturing the first decimal. -/
def fuelFallbackAt (cs : List Char) : Option String :=
  match takeLit "Fuel Surcharge".data cs with
  | none => none
  | some r1 =>
    match skipWs1 r1 with
    | none => none
    | some r2 => (takeDec r2).map Prod.fst

/-- Anchored matcher for source line 168:
`GST/HST/VAT\s+(\d+\.\d+)`, capturing the decimal. -/
def gstAt (cs : List Char) : Option String :=
  match takeLit "GST/HST/VAT".data cs with
  | none => none
  | some r1 =>
    match skipWs1 r1 with
    | none => none
    | some r2 => (takeDec r2).map Prod.fst

/-- Python `float()` applied to a captured group of shape `\d+\.\d+`; such a
capture is always in `parseFloat`'s domain, so the default is never used. -/
def capVal (cap : String) : ℚ :=
  (parseFloat cap).getD 0

/-- Source lines 153-155: tariff amount from the last page's text, default
`0.0` when the pattern does not match anywhere. -/
def extractTariff (text : String) : ℚ :=
  match searchAux tariffAt text.data with
  | some cap => capVal cap
  | none => 0

/-- Source lines 157-165: fuel surcharge from the last page's text — try
the primary pattern, fall back to the looser pattern, default `0.0`. -/
def extractFuel (text : String) : ℚ :=
  match searchAux fuelPrimaryAt text.data with
  | some cap => capVal cap
  | none =>
    match searchAux fuelFallbackAt text.data with
    | some cap => capVal cap
    | none => 0

/-- Source lines 168-170: GST/HST/VAT from the last page's text, default
`0.0`. -/
def extractGst (text : String) : ℚ :=
  match searchAux gstAt text.data with
  | some cap => capVal cap
  | none => 0

/-- Source line 93-96: invoice number from the first page's text. -/
def extractInvoiceNumber (text : String) : Option String :=
  searchAux invoiceAt text.data

/-- Source line 100: `text.split('\n')` — split at every newline, keeping
empty pieces. -/
def splitNl : List Char → List String
  | [] => [""]
  | c :: rest =>
    if c = '\n' then "" :: splitNl rest
    else
      match splitNl rest with
      | t :: ts => (String.mk (c :: t.data)) :: ts
      | [] => [String.mk [c]]

/-- The aggregated result assembled by `process_tdl_invoice`
(source lines 77-207): the reconciled items in document order, the
singleton fields, the per-description summary in the printed (sorted)
order, the summed total and the grand total including charges. -/
structure Result where
  items : List Item
  invoiceNumber : Option String
  tariffAmount : ℚ
  fuelSurcharge : ℚ
  gstHstVat : ℚ
  categoryTotals : List (String × ℚ)
  totalAmount : ℚ
  grandTotal : ℚ
deriving DecidableEq

/-- The whole pipeline over the extracted page texts (source lines 77-207):
per page, recognize and reconcile every line's item in order; the invoice
number is searched on the first page (`page_num == 0`), the three charge
fields on the last page (`page_num == len(pdf.pages) - 1`, each keeping its
`0.0` default when its pattern is absent); the summary is grouped, sorted
descending by amount, and `total_amount` is accumulated over the sorted
summary (source lines 199-202); the printed grand total adds the three
charges (source line 207). -/
def processInvoice (db : List Row) (pages : List String) : Result :=
  let items := pages.flatMap (fun p => (splitNl p.data).filterMap (processLine db))
  let inv := match pages.head? with
    | some p => extractInvoiceNumber p
    | none => none
  let tar := match pages.getLast? with
    | some p => extractTariff p
    | none => 0
  let fuel := match pages.getLast? with
    | some p => extractFuel p
    | none => 0
  let gst := match pages.getLast? with
    | some p => extractGst p
    | none => 0
  let summ := sortDesc (summaryOf items)
  let tot := summ.foldl (fun a p => a + p.2) 0
  ⟨items, inv, tar, fuel, gst, summ, tot, tot + tar + fuel + gst⟩

/-- The claim's pure-integer token pattern `\d+`, stated as a predicate
(spec-side definition, for comparison with the source classifier). -/
def specIntPat (t : String) : Prop :=
  t.data ≠ [] ∧ ∀ c ∈ t.data, c.isDigit = true

/-- The claim's decimal token pattern `\d+\.\d*`, stated as a predicate
(spec-side definition, for comparison with the source classifier). -/
def specDecPat (t : String) : Prop :=
  ∃ a b, t.data = a ++ '.' :: b ∧ a ≠ [] ∧
    (∀ c ∈ a, c.isDigit = true) ∧ ∀ c ∈ b, c.isDigit = true

section Helpers

variable {α : Type}

lemma takeWhile_of_all {p : α → Bool} :
    ∀ {l : List α}, (∀ c ∈ l, p c = true) → l.takeWhile p = l
  | [], _ => rfl
  | c :: l, h => by
    simp only [List.takeWhile_cons, h c (by simp)]
    simpa using takeWhile_of_all fun x hx => h x (by simp [hx])

lemma dropWhile_of_all {p : α → Bool} :
    ∀ {l : List α}, (∀ c ∈ l, p c = true) → l.dropWhile p = []
  | [], _ => rfl
  | c :: l, h => by
    simp only [List.dropWhile_cons, h c (by simp)]
    exact dropWhile_of_all fun x hx => h x (by simp [hx])

lemma mem_takeWhile_sat {p : α → Bool} :
    ∀ {l : List α}, ∀ c ∈ l.takeWhile p, p c = true := by
  intro l
  induction l with
  | nil => intro c hc; simp [List.takeWhile] at hc
  | cons a l ih =>
    intro c hc
    by_cases hp : p a = true
    · rw [List.takeWhile_cons, if_pos hp] at hc
      rcases List.mem_cons.mp hc with h | h
      · exact h ▸ hp
      · exact ih c h
    · rw [List.takeWhile_cons, if_neg hp] at hc
      exact absurd hc (List.not_mem_nil c)

lemma takeWhile_append_sat {p : α → Bool} {a : List α} {c : α} {b : List α}
    (ha : ∀ x ∈ a, p x = true) (hc : p c = false) :
    (a ++ c :: b).takeWhile p = a := by
  induction a with
  | nil => simp [List.takeWhile_cons, hc]
  | cons x xs ih =>
    have hx : p x = true := ha x (by simp)
    simp only [List.cons_append, List.takeWhile_cons, hx, if_true]
    simp only [List.cons.injEq, true_and]
    exact ih fun y hy => ha y (by simp [hy])

lemma dropWhile_append_sat {p : α → Bool} {a : List α} {c : α} {b : List α}
    (ha : ∀ x ∈ a, p x = true) (hc : p c = false) :
    (a ++ c :: b).dropWhile p = c :: b := by
  induction a with
  | nil => simp [List.dropWhile_cons, hc]
  | cons x xs ih =>
    have hx : p x = true := ha x (by simp)
    simp only [List.cons_append, List.dropWhile_cons, hx, if_true]
    exact ih fun y hy => ha y (by simp [hy])

end Helpers

/-- Every token the classifier accepts is in the domain of `parseFloat`:
the paired round-trip property behind the recognizer's `try` block. -/
lemma parseFloat_of_numeric {t : String} (h : is_numeric_token t = true) :
    (parseFloat t).isSome = true := by
  unfold is_numeric_token at h
  rcases Bool.or_eq_true _ _ |>.mp h with hdec | hint
  · unfold numDecMatch at hdec
    rcases hdrop : t.data.dropWhile Char.isDigit with _ | ⟨c, r2⟩
    · rw [hdrop] at hdec
      simp only at hdec
      unfold parseFloat
      rw [hdrop]
      simp only [Bool.not_eq_true'] at hdec
      simp [hdec]
    · rw [hdrop] at hdec
      simp only [Bool.and_eq_true, Bool.not_eq_true', decide_eq_true_eq] at hdec
      obtain ⟨⟨hne, hdot⟩, hall⟩ := hdec
      unfold parseFloat
      rw [hdrop]
      simp [hne, hdot, hall]
  · unfold numIntMatch at hint
    simp only [Bool.and_eq_true, Bool.not_eq_true', List.all_eq_true] at hint
    obtain ⟨hne, hall⟩ := hint
    have hdrop : t.data.dropWhile Char.isDigit = [] :=
      dropWhile_of_all fun c hc => hall c hc
    unfold parseFloat
    rw [hdrop]
    have : (t.data.takeWhile Char.isDigit).isEmpty = false := by
      rw [takeWhile_of_all fun c hc => hall c hc]; exact hne
    simp [this]

/-- C7: a whitespace-delimited token is classified as numeric iff it
matches the pure-integer pattern `\d+` or the decimal pattern `\d+\.\d*`;
any token containing a sign, a comma thousands separator, or a scientific
`e`/`E` is classified as non-numeric. -/
theorem c7_numeric_token_classifier :
    (∀ t : String, is_numeric_token t = true ↔ (specIntPat t ∨ specDecPat t)) ∧
    (∀ (t : String), ∀ c ∈ t.data,
      (c = '+' ∨ c = '-' ∨ c = ',' ∨ c = 'e' ∨ c = 'E') → is_numeric_token t = false) := by
  have key : ∀ t : String, is_numeric_token t = true ↔ (specIntPat t ∨ specDecPat t) := by
    intro t
    constructor
    · intro h
      unfold is_numeric_token numDecMatch numIntMatch at h
      rcases Bool.or_eq_true _ _ |>.mp h with hdec | hint
      · rcases hdrop : t.data.dropWhile Char.isDigit with _ | ⟨c, r2⟩
        · rw [hdrop] at hdec
          simp only [Bool.not_eq_true'] at hdec
          left
          have hdata : t.data = t.data.takeWhile Char.isDigit := by
            conv_lhs => rw [← List.takeWhile_append_dropWhile Char.isDigit t.data]
            rw [hdrop, List.append_nil]
          refine ⟨?_, ?_⟩
          · rw [hdata]
            intro hnil
            rw [hnil] at hdec
            simp at hdec
          · intro ch hch
            rw [hdata] at hch
            exact mem_takeWhile_sat ch hch
        · rw [hdrop] at hdec
          simp only [Bool.and_eq_true, Bool.not_eq_true', decide_eq_true_eq,
            List.all_eq_true] at hdec
          obtain ⟨⟨hne, hdot⟩, hall⟩ := hdec
          right
          refine ⟨t.data.takeWhile Char.isDigit, r2, ?_, ?_, ?_, hall⟩
          · conv_lhs => rw [← List.takeWhile_append_dropWhile Char.isDigit t.data]
            rw [hdrop, hdot]
          · intro hnil; rw [hnil] at hne; simp at hne
          · exact fun ch hch => mem_takeWhile_sat ch hch
      · simp only [Bool.and_eq_true, Bool.not_eq_true', List.all_eq_true] at hint
        obtain ⟨hne, hall⟩ := hint
        refine Or.inl ⟨fun hnil => ?_, hall⟩
        rw [hnil] at hne
        simp at hne
    · intro h
      unfold is_numeric_token
      rcases h with ⟨hne, hall⟩ | ⟨a, b, heq, hane, haall, hball⟩
      · apply Bool.or_eq_true _ _ |>.mpr
        right
        unfold numIntMatch
        simp only [Bool.and_eq_true, Bool.not_eq_true', List.all_eq_true]
        exact ⟨by simpa using hne, hall⟩
      · apply Bool.or_eq_true _ _ |>.mpr
        left
        unfold numDecMatch
        have hdot : Char.isDigit '.' = false := by decide
        rw [heq, takeWhile_append_sat haall hdot, dropWhile_append_sat haall hdot]
        simp only [Bool.and_eq_true, Bool.not_eq_true', decide_eq_true_eq, List.all_eq_true]
        refine ⟨⟨by simpa using hane, by trivial⟩, hball⟩
  refine ⟨key, ?_⟩
  intro t c hc hcs
  cases hbool : is_numeric_token t with
  | false => rfl
  | true =>
    exfalso
    have hdigit_or_dot : c.isDigit = true ∨ c = '.' := by
      rcases (key t).mp hbool with ⟨_, hall⟩ | ⟨a, b, heq, _, haall, hball⟩
      · exact Or.inl (hall c hc)
      · rw [heq] at hc
        rcases List.mem_append.mp hc with h | h
        · exact Or.inl (haall c h)
        · rcases List.mem_cons.mp h with h | h
          · exact Or.inr h
          · exact Or.inl (hball c h)
    rcases hcs with h | h | h | h | h <;> subst h <;>
      rcases hdigit_or_dot with h | h <;> simp at h

/-- C7 witness: instantiation at an accepted decimal token and at a token
with a thousands separator. -/
theorem c7_witness :
    is_numeric_token "2.50" = true ∧ is_numeric_token "1,000" = false :=
  ⟨(c7_numeric_token_classifier.1 "2.50").mpr
      (Or.inr ⟨['2'], ['5', '0'], by decide, by decide, by decide, by decide⟩),
   c7_numeric_token_classifier.2 "1,000" ',' (by decide)
      (Or.inr (Or.inr (Or.inl rfl)))⟩

/-- C8: every token classified as numeric parses without raising, and a
line that passes the item-code match and the at-least-4-numeric-tokens
check always yields a candidate — the recognizer's IndexError/ValueError
branch is unreachable under that precondition. -/
theorem c8_numeric_parse_total :
    (∀ t : String, is_numeric_token t = true → (parseFloat t).isSome = true) ∧
    (∀ (line : String) (raw : String), codeMatch line = some raw →
      4 ≤ (numericTokens line).length → (recognize line).isSome = true) := by
  refine ⟨fun t h => parseFloat_of_numeric h, ?_⟩
  intro line raw hcm hlen
  have h1lt : 1 < (numericTokens line).length := by omega
  have h3lt : 3 < (numericTokens line).length := by omega
  have h1 : (numericTokens line).get? 1 = some ((numericTokens line).get ⟨1, h1lt⟩) :=
    List.get?_eq_get h1lt
  have h3 : (numericTokens line).get? 3 = some ((numericTokens line).get ⟨3, h3lt⟩) :=
    List.get?_eq_get h3lt
  have hmem1 : (numericTokens line).get ⟨1, h1lt⟩ ∈ numericTokens line := List.get_mem _ _ _
  have hmem3 : (numericTokens line).get ⟨3, h3lt⟩ ∈ numericTokens line := List.get_mem _ _ _
  have hnum1 : is_numeric_token ((numericTokens line).get ⟨1, h1lt⟩) = true :=
    (List.mem_filter.mp hmem1).2
  have hnum3 : is_numeric_token ((numericTokens line).get ⟨3, h3lt⟩) = true :=
    (List.mem_filter.mp hmem3).2
  obtain ⟨q, hq⟩ := Option.isSome_iff_exists.mp (parseFloat_of_numeric hnum1)
  obtain ⟨u, hu⟩ := Option.isSome_iff_exists.mp (parseFloat_of_numeric hnum3)
  unfold recognize
  rw [hcm]
  simp only [Option.some_bind]
  rw [if_neg (by omega : ¬ (numericTokens line).length < 4), h1, h3]
  simp only [Option.some_bind]
  rw [hq, hu]
  rfl

/-- C8 witness: instantiation at a numeric token and at Scenario A's line. -/
theorem c8_witness :
    (parseFloat "2.50").isSome = true ∧
    (recognize "00012345   10   0.00   2.50   25.00").isSome = true :=
  ⟨c8_numeric_parse_total.1 "2.50" (by decide),
   c8_numeric_parse_total.2 "00012345   10   0.00   2.50   25.00" "00012345"
     (by decide) (by decide)⟩

/-- C3: a line whose start matches the item-code pattern and which has at
least 4 numeric tokens yields exactly one candidate, whose quantity is the
2nd numeric token parsed as a decimal and truncated to an integer and whose
unit price is the 4th numeric token parsed as a decimal; Scenario A's line
yields {item_code "00012345", quantity 10, unit_price 2.50, line_total
25.00}; a line with fewer than 4 numeric tokens yields no candidate. -/
theorem c3_positional_field_mapping :
    (∀ line raw n1 n3 : String,
      codeMatch line = some raw →
      (numericTokens line).get? 1 = some n1 →
      (numericTokens line).get? 3 = some n3 →
      4 ≤ (numericTokens line).length →
      ∃ q u : ℚ, parseFloat n1 = some q ∧ parseFloat n3 = some u ∧
        recognize line = some ⟨zfill8 raw, pyInt q, u, round2 ((pyInt q : ℚ) * u)⟩) ∧
    (∀ line : String, (numericTokens line).length < 4 → recognize line = none) ∧
    recognize "00012345   10   0.00   2.50   25.00" = some ⟨"00012345", 10, 5 / 2, 25⟩ := by
  refine ⟨?_, ?_, by decide⟩
  · intro line raw n1 n3 hcm h1 h3 hlen
    have hmem1 : n1 ∈ numericTokens line := List.get?_mem h1
    have hmem3 : n3 ∈ numericTokens line := List.get?_mem h3
    have hnum1 : is_numeric_token n1 = true := (List.mem_filter.mp hmem1).2
    have hnum3 : is_numeric_token n3 = true := (List.mem_filter.mp hmem3).2
    obtain ⟨q, hq⟩ := Option.isSome_iff_exists.mp (parseFloat_of_numeric hnum1)
    obtain ⟨u, hu⟩ := Option.isSome_iff_exists.mp (parseFloat_of_numeric hnum3)
    refine ⟨q, u, hq, hu, ?_⟩
    unfold recognize
    rw [hcm]
    simp only [Option.some_bind]
    rw [if_neg (by omega : ¬ (numericTokens line).length < 4), h1, h3]
    simp only [Option.some_bind]
    rw [hq, hu]
    rfl
  · intro line hlen
    unfold recognize
    cases hcm : codeMatch line with
    | none => rfl
    | some raw =>
      simp only [Option.some_bind]
      rw [if_pos hlen]

/-- C3 witness: instantiation at Scenario A's line and at a line with only
3 numeric tokens. -/
theorem c3_witness :
    (∃ q u : ℚ, parseFloat "10" = some q ∧ parseFloat "2.50" = some u ∧
      recognize "00012345   10   0.00   2.50   25.00"
        = some ⟨zfill8 "00012345", pyInt q, u, round2 ((pyInt q : ℚ) * u)⟩) ∧
    recognize "00012 1 2" = none :=
  ⟨c3_positional_field_mapping.1 "00012345   10   0.00   2.50   25.00" "00012345" "10" "2.50"
      (by decide) (by decide) (by decide) (by decide),
   c3_positional_field_mapping.2.1 "00012 1 2" (by decide)⟩

/-- C4: every item-code match at a line start is a digit run of length
5..8; canonicalization pads such a run on the left with zeros to length
exactly 8 and leaves length-8 runs unchanged; a line whose leading digit
run is shorter than 5 or longer than 8 yields no candidate, in particular
Scenario B's line. -/
theorem c4_code_canonical_form :
    (∀ line raw : String, codeMatch line = some raw →
      5 ≤ raw.length ∧ raw.length ≤ 8 ∧ ∀ c ∈ raw.data, c.isDigit = true) ∧
    (∀ s : String, 5 ≤ s.length → s.length ≤ 8 →
      (zfill8 s).length = 8 ∧
      zfill8 s = String.mk (List.replicate (8 - s.length) '0' ++ s.data) ∧
      (s.length = 8 → zfill8 s = s)) ∧
    (∀ line : String,
      (line.data.takeWhile Char.isDigit).length < 5 ∨
        8 < (line.data.takeWhile Char.isDigit).length →
      recognize line = none) ∧
    recognize "123 2 5.00 1.00" = none := by
  refine ⟨?_, ?_, ?_, by decide⟩
  · intro line raw hcm
    unfold codeMatch at hcm
    rcases hd : line.data.dropWhile Char.isDigit with _ | ⟨c, rest⟩
    · rw [hd] at hcm
      exact absurd hcm (by simp)
    · rw [hd] at hcm
      dsimp only at hcm
      by_cases hcond : (5 ≤ (line.data.takeWhile Char.isDigit).length
          && (line.data.takeWhile Char.isDigit).length ≤ 8 && isPyWs c) = true
      · rw [if_pos hcond] at hcm
        simp only [Bool.and_eq_true, decide_eq_true_eq] at hcond
        obtain ⟨⟨hle5, hle8⟩, _⟩ := hcond
        have hraw : raw = String.mk (line.data.takeWhile Char.isDigit) :=
          (Option.some_inj.mp hcm).symm
        subst hraw
        refine ⟨hle5, hle8, ?_⟩
        intro ch hch
        exact mem_takeWhile_sat ch hch
      · rw [if_neg hcond] at hcm
        exact absurd hcm (by simp)
  · intro s h5 h8
    unfold zfill8
    by_cases h : s.length < 8
    · rw [if_pos h]
      refine ⟨?_, rfl, fun he => absurd he (by omega)⟩
      show (List.replicate (8 - s.length) '0' ++ s.data).length = 8
      have : s.data.length = s.length := rfl
      simp [List.length_append, this]
      omega
    · have h8' : s.length = 8 := by omega
      rw [if_neg h]
      have heta : String.mk s.data = s := by cases s; rfl
      refine ⟨h8', ?_, fun _ => rfl⟩
      rw [h8']
      simp [heta]
  · intro line hlt
    unfold recognize codeMatch
    rcases hd : line.data.dropWhile Char.isDigit with _ | ⟨c, rest⟩
    · rfl
    · dsimp only
      rw [if_neg]
      · rfl
      · intro hcond
        simp only [Bool.and_eq_true, decide_eq_true_eq] at hcond
        omega

/-- C4 witness: instantiation at Scenario A's line (the matched code), at
the 5-digit code "12345", and at Scenario B's line. -/
theorem c4_witness :
    (5 ≤ ("00012345" : String).length ∧ ("00012345" : String).length ≤ 8 ∧
      ∀ c ∈ ("00012345" : String).data, c.isDigit = true) ∧
    ((zfill8 "12345").length = 8 ∧
      zfill8 "12345"
        = String.mk (List.replicate (8 - ("12345" : String).length) '0'
            ++ ("12345" : String).data) ∧
      (("12345" : String).length = 8 → zfill8 "12345" = "12345")) ∧
    recognize "123 2 5.00 1.00" = none :=
  ⟨c4_code_canonical_form.1 "00012345   10   0.00   2.50   25.00" "00012345" (by decide),
   c4_code_canonical_form.2.1 "12345" (by decide) (by decide),
   c4_code_canonical_form.2.2.1 "123 2 5.00 1.00" (Or.inl (by decide))⟩

/-- C1 counterexample: the table load stringifies but does not zero-pad
row item codes; a row stored as "12345" corresponds, after
canonicalization, to the candidate code "00012345", yet looking up that
canonical code misses the row, so the recognized item gets the NOT_FOUND
sentinels instead of the row's GL fields. -/
theorem c1_counterexample :
    zfill8 "12345" = "00012345" ∧
    lookup [⟨"12345", "5000", "Food"⟩] "00012345" = none ∧
    processLine [⟨"12345", "5000", "Food"⟩] "12345 2 0.00 2.50 5.00"
      = some ⟨"00012345", 2, 5 / 2, 5, "NOT_FOUND", "NOT_FOUND"⟩ := by
  decide

/-- C1 (amended): the Lookup Index performs no canonicalization of row
item codes — a lookup of a candidate's canonical code succeeds iff some
row's stringified item code equals that canonical code verbatim, and any
returned row is a table row bearing exactly the queried code. -/
theorem c1_lookup_is_verbatim :
    (∀ (db : List Row) (code : String),
      (lookup db code).isSome = true ↔ ∃ r ∈ db, r.itemCode = code) ∧
    (∀ (db : List Row) (code : String) (r : Row),
      lookup db code = some r → r ∈ db ∧ r.itemCode = code) := by
  constructor
  · intro db code
    unfold lookup
    rw [List.find?_isSome]
    constructor
    · rintro ⟨r, hr, hbeq⟩
      exact ⟨r, hr, by simpa using hbeq⟩
    · rintro ⟨r, hr, heq⟩
      exact ⟨r, hr, by simpa using heq⟩
  · intro db code r h
    exact ⟨List.mem_of_find?_eq_some h, by simpa using List.find?_some h⟩

/-- C1 witness: instantiation at a one-row table whose stored code is
already in canonical 8-digit form. -/
theorem c1_witness :
    (lookup [⟨"00012345", "5000", "Food"⟩] "00012345").isSome = true ∧
    ((⟨"00012345", "5000", "Food"⟩ : Row) ∈ [(⟨"00012345", "5000", "Food"⟩ : Row)] ∧
      (⟨"00012345", "5000", "Food"⟩ : Row).itemCode = "00012345") :=
  ⟨(c1_lookup_is_verbatim.1 [⟨"00012345", "5000", "Food"⟩] "00012345").mpr
      ⟨⟨"00012345", "5000", "Food"⟩, by decide, rfl⟩,
   c1_lookup_is_verbatim.2 [⟨"00012345", "5000", "Food"⟩] "00012345"
      ⟨"00012345", "5000", "Food"⟩ (by decide)⟩

/-- C2 counterexample: with two rows sharing the canonical code
"00000001", the lookup returns the first-loaded row's GL fields ("A"),
not the last-loaded row's ("B"). -/
theorem c2_counterexample :
    lookup [⟨"00000001", "A", "DA"⟩, ⟨"00000001", "B", "DB"⟩] "00000001"
      = some ⟨"00000001", "A", "DA"⟩ ∧
    (lookup [⟨"00000001", "A", "DA"⟩, ⟨"00000001", "B", "DB"⟩] "00000001").map Row.glCode
      ≠ some "B" := by
  decide

/-- C2 (amended): when the reference table contains two or more rows with
the same canonical item code, a lookup of that code returns the
category_code and category_description of the first-loaded such row
(first-loaded wins), so the index behaves as containing at most one
entry per canonical item code. -/
theorem c2_first_loaded_wins :
    ∀ (pre post : List Row) (r : Row) (code : String),
      r.itemCode = code →
      (∀ r' ∈ pre, r'.itemCode ≠ code) →
      lookup (pre ++ r :: post) code = some r := by
  intro pre post r code hr hpre
  induction pre with
  | nil =>
    unfold lookup
    simp [List.find?, hr]
  | cons x xs ih =>
    have hx : x.itemCode ≠ code := hpre x (by simp)
    have hxs : ∀ r' ∈ xs, r'.itemCode ≠ code := fun r' h => hpre r' (by simp [h])
    unfold lookup at ih ⊢
    rw [List.cons_append, List.find?_cons_of_neg _ (by simpa using hx)]
    exact ih hxs

/-- C2 witness: instantiation at a table with a non-matching leading row
and two duplicate rows for the queried code. -/
theorem c2_witness :
    lookup [⟨"00000002", "X", "DX"⟩, ⟨"00000001", "A", "DA"⟩, ⟨"00000001", "B", "DB"⟩]
        "00000001"
      = some ⟨"00000001", "A", "DA"⟩ :=
  c2_first_loaded_wins [⟨"00000002", "X", "DX"⟩] [⟨"00000001", "B", "DB"⟩]
    ⟨"00000001", "A", "DA"⟩ "00000001" rfl (by decide)

/-- C6: fuel-surcharge extraction first tries the primary pattern (label,
decimal, literal "0.00", trailing decimal — capturing the trailing
decimal) and falls back to capturing the first decimal after the label
only when the primary fails; when neither matches the value stays 0.0.
Scenario D: "Fuel Surcharge 12.50 0.00 3.75" yields 3.75 and
"Fuel Surcharge 4.20" yields 4.20. -/
theorem c6_fuel_surcharge_fallback :
    (∀ (text cap : String),
      searchAux fuelPrimaryAt text.data = some cap → extractFuel text = capVal cap) ∧
    (∀ (text cap : String),
      searchAux fuelPrimaryAt text.data = none →
      searchAux fuelFallbackAt text.data = some cap → extractFuel text = capVal cap) ∧
    (∀ text : String,
      searchAux fuelPrimaryAt text.data = none →
      searchAux fuelFallbackAt text.data = none → extractFuel text = 0) ∧
    extractFuel "Fuel Surcharge 12.50 0.00 3.75" = 15 / 4 ∧
    extractFuel "Fuel Surcharge 4.20" = 21 / 5 := by
  refine ⟨?_, ?_, ?_, by decide, by decide⟩
  · intro text cap h
    unfold extractFuel
    rw [h]
  · intro text cap hp hf
    unfold extractFuel
    rw [hp, hf]
  · intro text hp hf
    unfold extractFuel
    rw [hp, hf]

/-- C6 witness: instantiation at Scenario D's two footer texts and at the
empty text. -/
theorem c6_witness :
    extractFuel "Fuel Surcharge 12.50 0.00 3.75" = capVal "3.75" ∧
    extractFuel "Fuel Surcharge 4.20" = capVal "4.20" ∧
    extractFuel "No charges here" = 0 :=
  ⟨c6_fuel_surcharge_fallback.1 "Fuel Surcharge 12.50 0.00 3.75" "3.75" (by decide),
   c6_fuel_surcharge_fallback.2.1 "Fuel Surcharge 4.20" "4.20" (by decide) (by decide),
   c6_fuel_surcharge_fallback.2.2.1 "No charges here" (by decide) (by decide)⟩

lemma lookupSummary_nil (k : String) : lookupSummary [] k = none := rfl

lemma lookupSummary_cons (p : String × ℚ) (rest : List (String × ℚ)) (k : String) :
    lookupSummary (p :: rest) k = if p.1 = k then some p.2 else lookupSummary rest k := by
  unfold lookupSummary
  by_cases h : p.1 = k
  · simp [List.find?_cons, h]
  · simp [List.find?_cons, h]

lemma lookupSummary_addToSummary (s : List (String × ℚ)) (d : String) (v : ℚ) (k : String) :
    lookupSummary (addToSummary s d v) k =
      if k = d then some ((lookupSummary s k).getD 0 + v) else lookupSummary s k := by
  induction s with
  | nil =>
    rw [show addToSummary [] d v = [(d, v)] from rfl, lookupSummary_cons, lookupSummary_nil]
    by_cases hk : k = d
    · rw [if_pos hk.symm, if_pos hk]
      simp
    · rw [if_neg (fun h => hk h.symm), if_neg hk]
  | cons p rest ih =>
    obtain ⟨k', a⟩ := p
    simp only [addToSummary]
    by_cases hd : k' = d
    · rw [if_pos hd, lookupSummary_cons, lookupSummary_cons]
      by_cases hk : k' = k
      · have hkd : k = d := hk.symm.trans hd
        rw [if_pos hk, if_pos hk, if_pos hkd]
        simp
      · have hkd : ¬ k = d := fun h => hk (hd.trans h.symm)
        rw [if_neg hk, if_neg hk, if_neg hkd]
    · rw [if_neg hd, lookupSummary_cons, lookupSummary_cons]
      by_cases hk : k' = k
      · have hkd : ¬ k = d := fun h => hd (hk.trans h)
        rw [if_pos hk, if_neg hkd, if_pos hk]
      · rw [if_neg hk, if_neg hk, ih]

lemma lookupSummary_foldl (k : String) :
    ∀ (items : List Item) (s : List (String × ℚ)),
      lookupSummary (items.foldl (fun acc it => addToSummary acc it.glDesc it.lineTotal) s) k =
        match lookupSummary s k with
        | some a =>
          some (a + ((items.filter (fun j => j.glDesc == k)).map Item.lineTotal).sum)
        | none =>
          if k ∈ items.map Item.glDesc then
            some (((items.filter (fun j => j.glDesc == k)).map Item.lineTotal).sum)
          else none := by
  intro items
  induction items with
  | nil =>
    intro s
    cases h : lookupSummary s k <;> simp [h]
  | cons it rest ih =>
    intro s
    rw [List.foldl_cons, ih, lookupSummary_addToSummary]
    by_cases hd : k = it.glDesc
    · have hfil : (it :: rest).filter (fun j => j.glDesc == k) =
          it :: rest.filter (fun j => j.glDesc == k) := by
        simp [List.filter_cons, hd.symm]
      have hmem : k ∈ (it :: rest).map Item.glDesc := by
        simp [List.map_cons, hd]
      rw [if_pos hd, hfil, if_pos hmem]
      cases h : lookupSummary s k with
      | some a =>
        dsimp only
        simp only [List.map_cons, List.sum_cons, Option.getD_some]
        congr 1
        ring
      | none =>
        dsimp only
        simp only [List.map_cons, List.sum_cons, Option.getD_none]
        congr 1
        ring
    · have hfil : (it :: rest).filter (fun j => j.glDesc == k) =
          rest.filter (fun j => j.glDesc == k) := by
        simp only [List.filter_cons]
        rw [if_neg (by simpa using fun h : it.glDesc = k => hd h.symm)]
      have hmem : (k ∈ (it :: rest).map Item.glDesc) ↔ (k ∈ rest.map Item.glDesc) := by
        simp [List.map_cons, List.mem_cons, hd]
      rw [if_neg hd, hfil]
      cases h : lookupSummary s k with
      | some a => dsimp only
      | none =>
        dsimp only
        by_cases hm : k ∈ rest.map Item.glDesc
        · rw [if_pos hm, if_pos (hmem.mpr hm)]
        · rw [if_neg hm, if_neg (fun hc => hm (hmem.mp hc))]

lemma lookupSummary_summaryOf (l : List Item) (k : String) (hk : k ∈ l.map Item.glDesc) :
    lookupSummary (summaryOf l) k
      = some (((l.filter (fun j => j.glDesc == k)).map Item.lineTotal).sum) := by
  unfold summaryOf
  rw [lookupSummary_foldl]
  simp [lookupSummary_nil, hk]

/-- C5: a recognized candidate whose canonical item code is absent from
the table is reconciled with both GL fields set to the "NOT_FOUND"
sentinel, is still emitted as an item (not dropped, no error path), and
whenever that item occurs in an item list the summary has a "NOT_FOUND"
group whose total is the sum of the line totals of the "NOT_FOUND"
items — the item's own line total among the summands. -/
theorem c5_not_found_handling :
    ∀ (db : List Row) (line : String) (c : Cand),
      recognize line = some c →
      lookup db c.itemCode = none →
      processLine db line
          = some ⟨c.itemCode, c.quantity, c.unitPrice, c.lineTotal,
              "NOT_FOUND", "NOT_FOUND"⟩ ∧
      ∀ l : List Item,
        (⟨c.itemCode, c.quantity, c.unitPrice, c.lineTotal,
            "NOT_FOUND", "NOT_FOUND"⟩ : Item) ∈ l →
        lookupSummary (summaryOf l) "NOT_FOUND"
            = some (((l.filter (fun j => j.glDesc == "NOT_FOUND")).map
                Item.lineTotal).sum) ∧
        (⟨c.itemCode, c.quantity, c.unitPrice, c.lineTotal,
            "NOT_FOUND", "NOT_FOUND"⟩ : Item)
          ∈ l.filter (fun j => j.glDesc == "NOT_FOUND") := by
  intro db line c hrec hlook
  constructor
  · unfold processLine
    rw [hrec]
    simp only [Option.map_some']
    unfold reconcile
    rw [hlook]
  · intro l hl
    refine ⟨?_, ?_⟩
    · exact lookupSummary_summaryOf l "NOT_FOUND" (List.mem_map.mpr ⟨_, hl, rfl⟩)
    · exact List.mem_filter.mpr ⟨hl, by simp⟩

/-- C5 witness: instantiation at the empty table, Scenario A's line and
the one-item list containing the reconciled item. -/
theorem c5_witness :
    processLine [] "00012345   10   0.00   2.50   25.00"
        = some ⟨"00012345", 10, 5 / 2, 25, "NOT_FOUND", "NOT_FOUND"⟩ ∧
    lookupSummary (summaryOf [⟨"00012345", 10, 5 / 2, 25, "NOT_FOUND", "NOT_FOUND"⟩])
        "NOT_FOUND"
      = some ((([(⟨"00012345", 10, 5 / 2, 25, "NOT_FOUND", "NOT_FOUND"⟩ : Item)].filter
            (fun j => j.glDesc == "NOT_FOUND")).map Item.lineTotal).sum) := by
  have h := c5_not_found_handling [] "00012345   10   0.00   2.50   25.00"
      ⟨"00012345", 10, 5 / 2, 25⟩ (by decide) (by decide)
  exact ⟨h.1,
    (h.2 [⟨"00012345", 10, 5 / 2, 25, "NOT_FOUND", "NOT_FOUND"⟩]
        (List.mem_singleton.mpr rfl)).1⟩

lemma foldl_add_snd (l : List (String × ℚ)) :
    ∀ a : ℚ, l.foldl (fun a p => a + p.2) a = a + (l.map Prod.snd).sum := by
  induction l with
  | nil => intro a; simp
  | cons p rest ih =>
    intro a
    rw [List.foldl_cons, ih, List.map_cons, List.sum_cons]
    ring

lemma insertDesc_map_snd_sum (x : String × ℚ) :
    ∀ l : List (String × ℚ),
      ((insertDesc x l).map Prod.snd).sum = x.2 + (l.map Prod.snd).sum := by
  intro l
  induction l with
  | nil => simp [insertDesc]
  | cons y ys ih =>
    by_cases h : y.2 < x.2
    · simp [insertDesc, h]
    · simp only [insertDesc, if_neg h, List.map_cons, List.sum_cons, ih]
      ring

lemma sortDesc_foldl_snd_sum :
    ∀ (l acc : List (String × ℚ)),
      ((l.foldl (fun acc x => insertDesc x acc) acc).map Prod.snd).sum
        = (acc.map Prod.snd).sum + (l.map Prod.snd).sum := by
  intro l
  induction l with
  | nil => intro acc; simp
  | cons x xs ih =>
    intro acc
    rw [List.foldl_cons, ih, insertDesc_map_snd_sum, List.map_cons, List.sum_cons]
    ring

lemma sortDesc_map_snd_sum (l : List (String × ℚ)) :
    ((sortDesc l).map Prod.snd).sum = (l.map Prod.snd).sum := by
  unfold sortDesc
  rw [sortDesc_foldl_snd_sum]
  simp

lemma addToSummary_map_snd_sum (s : List (String × ℚ)) (d : String) (v : ℚ) :
    ((addToSummary s d v).map Prod.snd).sum = (s.map Prod.snd).sum + v := by
  induction s with
  | nil => simp [addToSummary]
  | cons p rest ih =>
    obtain ⟨k, a⟩ := p
    by_cases h : k = d
    · simp only [addToSummary, if_pos h, List.map_cons, List.sum_cons]
      ring
    · simp only [addToSummary, if_neg h, List.map_cons, List.sum_cons, ih]
      ring

lemma summaryOf_foldl_snd_sum :
    ∀ (items : List Item) (s : List (String × ℚ)),
      (((items.foldl (fun acc it => addToSummary acc it.glDesc it.lineTotal) s)).map
          Prod.snd).sum
        = (s.map Prod.snd).sum + (items.map Item.lineTotal).sum := by
  intro items
  induction items with
  | nil => intro s; simp
  | cons it rest ih =>
    intro s
    rw [List.foldl_cons, ih, addToSummary_map_snd_sum, List.map_cons, List.sum_cons]
    ring

lemma summaryOf_map_snd_sum (items : List Item) :
    ((summaryOf items).map Prod.snd).sum = (items.map Item.lineTotal).sum := by
  unfold summaryOf
  rw [summaryOf_foldl_snd_sum]
  simp

/-- C10: the reported total equals the sum of all items' line totals and
equals the sum of the per-category totals; the printed grand total adds
the tariff, fuel-surcharge and tax amounts to it; and both are 0.0 for
an empty page sequence. -/
theorem c10_total_consistency :
    ∀ (db : List Row) (pages : List String),
      (processInvoice db pages).totalAmount
          = ((processInvoice db pages).items.map Item.lineTotal).sum ∧
      (processInvoice db pages).totalAmount
          = ((processInvoice db pages).categoryTotals.map Prod.snd).sum ∧
      (processInvoice db pages).grandTotal
          = (processInvoice db pages).totalAmount + (processInvoice db pages).tariffAmount
            + (processInvoice db pages).fuelSurcharge
            + (processInvoice db pages).gstHstVat ∧
      (processInvoice db []).totalAmount = 0 ∧
      (processInvoice db []).grandTotal = 0 := by
  intro db pages
  have htot : (processInvoice db pages).totalAmount
      = ((processInvoice db pages).categoryTotals.foldl (fun a p => a + p.2) 0) := rfl
  have hcat : (processInvoice db pages).categoryTotals
      = sortDesc (summaryOf ((processInvoice db pages).items)) := rfl
  refine ⟨?_, ?_, rfl, rfl, show (0 : ℚ) + 0 + 0 + 0 = 0 by norm_num⟩
  · rw [htot, foldl_add_snd, hcat, sortDesc_map_snd_sum, summaryOf_map_snd_sum, zero_add]
  · rw [htot, foldl_add_snd, zero_add]

lemma firstIdx_append_mem {k : String} :
    ∀ {ds : List String} (es : List String), k ∈ ds → firstIdx (ds ++ es) k = firstIdx ds k := by
  intro ds
  induction ds with
  | nil => intro es h; exact absurd h (List.not_mem_nil k)
  | cons d ds ih =>
    intro es h
    by_cases hd : d = k
    · simp [firstIdx, hd]
    · have hk : k ∈ ds := by
        rcases List.mem_cons.mp h with h' | h'
        · exact absurd h'.symm hd
        · exact h'
      simp [firstIdx, hd, ih es hk]

lemma firstIdx_lt_length {k : String} :
    ∀ {ds : List String}, k ∈ ds → firstIdx ds k < ds.length := by
  intro ds
  induction ds with
  | nil => intro h; exact absurd h (List.not_mem_nil k)
  | cons d ds ih =>
    intro h
    by_cases hd : d = k
    · simp [firstIdx, hd]
    · have hk : k ∈ ds := by
        rcases List.mem_cons.mp h with h' | h'
        · exact absurd h'.symm hd
        · exact h'
      simp only [firstIdx, if_neg hd, List.length_cons]
      have := ih hk
      omega

lemma firstIdx_append_self {k : String} :
    ∀ {ds : List String}, k ∉ ds → firstIdx (ds ++ [k]) k = ds.length := by
  intro ds
  induction ds with
  | nil => intro _; simp [firstIdx]
  | cons d ds ih =>
    intro h
    have hd : ¬ d = k := fun he => h (by simp [he])
    have hk : k ∉ ds := fun he => h (by simp [he])
    simp [firstIdx, hd, ih hk]

lemma addToSummary_keys (s : List (String × ℚ)) (d : String) (v : ℚ) :
    (addToSummary s d v).map Prod.fst
      = if d ∈ s.map Prod.fst then s.map Prod.fst else s.map Prod.fst ++ [d] := by
  induction s with
  | nil => simp [addToSummary]
  | cons p rest ih =>
    obtain ⟨k, a⟩ := p
    by_cases h : k = d
    · simp [addToSummary, if_pos h, h]
    · simp only [addToSummary, if_neg h, List.map_cons, ih]
      by_cases hm : d ∈ rest.map Prod.fst
      · rw [if_pos hm, if_pos (by simp [hm])]
      · have hnd : d ∉ k :: rest.map Prod.fst := by
          intro hc
          rcases List.mem_cons.mp hc with hc | hc
          · exact h hc.symm
          · exact hm hc
        rw [if_neg hm, if_neg hnd, List.cons_append]

lemma summary_keys_firstIdx :
    ∀ (rest : List Item) (s : List (String × ℚ)) (ds : List String),
      List.Pairwise (fun x y => firstIdx ds x < firstIdx ds y) (s.map Prod.fst) →
      (∀ k, k ∈ s.map Prod.fst ↔ k ∈ ds) →
      List.Pairwise
        (fun x y => firstIdx (ds ++ rest.map Item.glDesc) x
          < firstIdx (ds ++ rest.map Item.glDesc) y)
        ((rest.foldl (fun acc it => addToSummary acc it.glDesc it.lineTotal) s).map
          Prod.fst) := by
  intro rest
  induction rest with
  | nil =>
    intro s ds h1 _
    simpa using h1
  | cons it rest ih =>
    intro s ds h1 h2
    have hsplit : ds ++ (it :: rest).map Item.glDesc
        = (ds ++ [it.glDesc]) ++ rest.map Item.glDesc := by
      simp
    rw [List.foldl_cons, hsplit]
    apply ih
    · rw [addToSummary_keys]
      by_cases hm : it.glDesc ∈ s.map Prod.fst
      · rw [if_pos hm]
        refine List.Pairwise.imp_of_mem ?_ h1
        intro x y hx hy hlt
        rw [firstIdx_append_mem [it.glDesc] ((h2 x).mp hx),
          firstIdx_append_mem [it.glDesc] ((h2 y).mp hy)]
        exact hlt
      · rw [if_neg hm]
        rw [List.pairwise_append]
        refine ⟨?_, by simp, ?_⟩
        · refine List.Pairwise.imp_of_mem ?_ h1
          intro x y hx hy hlt
          rw [firstIdx_append_mem [it.glDesc] ((h2 x).mp hx),
            firstIdx_append_mem [it.glDesc] ((h2 y).mp hy)]
          exact hlt
        · intro x hx y hy
          have hyd : y = it.glDesc := by simpa using hy
          subst hyd
          have hxds : x ∈ ds := (h2 x).mp hx
          have hnd : it.glDesc ∉ ds := fun hc => hm ((h2 it.glDesc).mpr hc)
          rw [firstIdx_append_mem [it.glDesc] hxds, firstIdx_append_self hnd]
          exact firstIdx_lt_length hxds
    · intro k
      rw [addToSummary_keys]
      by_cases hm : it.glDesc ∈ s.map Prod.fst
      · rw [if_pos hm]
        constructor
        · intro hk
          exact List.mem_append.mpr (Or.inl ((h2 k).mp hk))
        · intro hk
          rcases List.mem_append.mp hk with hk | hk
          · exact (h2 k).mpr hk
          · have : k = it.glDesc := by simpa using hk
            exact this ▸ hm
      · rw [if_neg hm]
        constructor
        · intro hk
          rcases List.mem_append.mp hk with hk | hk
          · exact List.mem_append.mpr (Or.inl ((h2 k).mp hk))
          · exact List.mem_append.mpr (Or.inr hk)
        · intro hk
          rcases List.mem_append.mp hk with hk | hk
          · exact List.mem_append.mpr (Or.inl ((h2 k).mpr hk))
          · exact List.mem_append.mpr (Or.inr hk)

lemma summaryOf_keys_firstIdx (items : List Item) :
    List.Pairwise
      (fun x y => firstIdx (items.map Item.glDesc) x < firstIdx (items.map Item.glDesc) y)
      ((summaryOf items).map Prod.fst) := by
  have h := summary_keys_firstIdx items [] [] (by simp) (by simp)
  simpa using h

lemma insertDesc_mem {x y : String × ℚ} :
    ∀ {l : List (String × ℚ)}, y ∈ insertDesc x l → y = x ∨ y ∈ l := by
  intro l
  induction l with
  | nil =>
    intro h
    simp [insertDesc] at h
    exact Or.inl h
  | cons z zs ih =>
    intro h
    by_cases hz : z.2 < x.2
    · rw [insertDesc, if_pos hz] at h
      rcases List.mem_cons.mp h with h' | h'
      · exact Or.inl h'
      · exact Or.inr h'
    · rw [insertDesc, if_neg hz] at h
      rcases List.mem_cons.mp h with h' | h'
      · exact Or.inr (h' ▸ List.mem_cons_self z zs)
      · rcases ih h' with h'' | h''
        · exact Or.inl h''
        · exact Or.inr (List.mem_cons_of_mem z h'')

lemma insertDesc_pairwise (g : String × ℚ → ℕ) (x : String × ℚ) :
    ∀ {l : List (String × ℚ)},
      List.Pairwise (fun a b => b.2 < a.2 ∨ (a.2 = b.2 ∧ g a < g b)) l →
      (∀ y ∈ l, g y < g x) →
      List.Pairwise (fun a b => b.2 < a.2 ∨ (a.2 = b.2 ∧ g a < g b)) (insertDesc x l) := by
  intro l
  induction l with
  | nil =>
    intro _ _
    simp [insertDesc]
  | cons y ys ih =>
    intro hl hg
    obtain ⟨hy, hys⟩ := List.pairwise_cons.mp hl
    by_cases h : y.2 < x.2
    · rw [insertDesc, if_pos h]
      refine List.Pairwise.cons ?_ hl
      intro z hz
      rcases List.mem_cons.mp hz with hz' | hz'
      · exact Or.inl (hz' ▸ h)
      · rcases hy z hz' with h' | h'
        · exact Or.inl (lt_trans h' h)
        · exact Or.inl (h'.1 ▸ h)
    · rw [insertDesc, if_neg h]
      refine List.Pairwise.cons ?_ (ih hys fun z hz => hg z (List.mem_cons_of_mem y hz))
      intro w hw
      rcases insertDesc_mem hw with hw' | hw'
      · subst hw'
        rcases lt_or_eq_of_le (not_lt.mp h) with h' | h'
        · exact Or.inl h'
        · exact Or.inr ⟨h'.symm, hg y (List.mem_cons_self y ys)⟩
      · exact hy w hw'

lemma sortDesc_pairwise_stable (g : String × ℚ → ℕ) :
    ∀ (l acc : List (String × ℚ)),
      List.Pairwise (fun a b => b.2 < a.2 ∨ (a.2 = b.2 ∧ g a < g b)) acc →
      (∀ y ∈ acc, ∀ x ∈ l, g y < g x) →
      List.Pairwise (fun a b => g a < g b) l →
      List.Pairwise (fun a b => b.2 < a.2 ∨ (a.2 = b.2 ∧ g a < g b))
        (l.foldl (fun acc x => insertDesc x acc) acc) := by
  intro l
  induction l with
  | nil =>
    intro acc hacc _ _
    simpa using hacc
  | cons x xs ih =>
    intro acc hacc hcross hl
    obtain ⟨hx, hxs⟩ := List.pairwise_cons.mp hl
    rw [List.foldl_cons]
    apply ih
    · exact insertDesc_pairwise g x hacc fun y hy => hcross y hy x (List.mem_cons_self x xs)
    · intro y hy x' hx'
      rcases insertDesc_mem hy with hy' | hy'
      · exact hy' ▸ hx x' hx'
      · exact hcross y hy' x' (List.mem_cons_of_mem x hx')
    · exact hxs

/-- C9: in the aggregated result the category groups are ordered by
descending summed line total, and two groups with equal sums are ordered
by which category description is first encountered in item (document)
order. -/
theorem c9_category_ordering :
    ∀ (db : List Row) (pages : List String),
      List.Pairwise
        (fun a b => b.2 < a.2 ∨ (a.2 = b.2 ∧
          firstIdx ((processInvoice db pages).items.map Item.glDesc) a.1
            < firstIdx ((processInvoice db pages).items.map Item.glDesc) b.1))
        (processInvoice db pages).categoryTotals := by
  intro db pages
  have hcat : (processInvoice db pages).categoryTotals
      = sortDesc (summaryOf ((processInvoice db pages).items)) := rfl
  rw [hcat]
  unfold sortDesc
  have hpw : List.Pairwise
      (fun a b : String × ℚ =>
        firstIdx ((processInvoice db pages).items.map Item.glDesc) a.1
          < firstIdx ((processInvoice db pages).items.map Item.glDesc) b.1)
      (summaryOf ((processInvoice db pages).items)) :=
    List.Pairwise.of_map Prod.fst (fun _ _ h => h)
      (summaryOf_keys_firstIdx ((processInvoice db pages).items))
  exact sortDesc_pairwise_stable
    (fun p => firstIdx ((processInvoice db pages).items.map Item.glDesc) p.1)
    (summaryOf ((processInvoice db pages).items)) [] (by simp) (by simp) hpw

end AutoTdl
